import Mathlib

/-!
STM8S003F3 embedded core: GPIO pin indirection, software clock and ADC
averaging.

Shallow embedding of `src/gpio/io.c` / `io.h` (logical pin table and the four
pin operations), of `src/system/system.c` / `system.h` (tick counter, its
accessor and the busy-wait delay) and of the conversion routines of
`src/adc/adc.c`, followed by the properties established about them.

Conventions.
* Hardware is threaded explicitly.  The pin operations run over a `World`:
  the vendor library's hardware state together with the list of vendor GPIO
  calls issued so far, in order.
* The vendor GPIO entry points (`GPIO_Init`, `GPIO_WriteHigh`,
  `GPIO_WriteLow`, `GPIO_ReadInputPin`) have no body in the sources; the pin
  operations take them as a parameter `V : Vendor HW`.
* The table `_ios` is declared `extern` in `io.h` and defined elsewhere; it
  is a parameter too.
* An `int*` argument is an `Option Int`: `none` is `NULL`, `some c` is a
  pointer to an `int` that currently holds `c`.  Operations that may store
  through the pointer return the content of the pointee afterwards.
* `clock_t` is `uint32_t`: a `Nat` reduced modulo `2 ^ 32` at each update.
* Busy-wait loops take a bound `fuel` on the number of polls and return
  `none` when the bound is reached before the loop exits.
* `int` is the 16-bit `int` of the STM8 compilers.
-/

namespace STM8Core

/-! ## GPIO: data model (`io.h`) -/

/-- Result codes of the pin operations (`IO_Result`, in declaration order, so
`IO_RESULT_OK = 0`, `IO_RESULT_INVALID_PIN = 1`, `IO_RESULT_INVALID_PARAM = 2`,
`IO_RESULT_ERROR = 3`). -/
inductive IO_Result where
  | IO_RESULT_OK
  | IO_RESULT_INVALID_PIN
  | IO_RESULT_INVALID_PARAM
  | IO_RESULT_ERROR
  deriving DecidableEq, Repr

/-- Drive modes a caller may request (`IO_MODE`). -/
inductive IO_MODE where
  | IO_MODE_INPUT
  | IO_MODE_INPUT_PU
  | IO_MODE_OUTPUT
  | IO_MODE_OUTPUT_OD
  | IO_MODE_OUTPUT_PP_HIGH
  deriving DecidableEq, Repr

/-- Logical pin `IOP_LED` of the enumeration `IO_IDX`. -/
def IOP_LED : Nat := 0
/-- Logical pin `IOP_U1RX`. -/
def IOP_U1RX : Nat := 1
/-- Logical pin `IOP_U1TX`. -/
def IOP_U1TX : Nat := 2
/-- Logical pin `IOP_AIN2`. -/
def IOP_AIN2 : Nat := 3
/-- Logical pin `IOP_PWM2`. -/
def IOP_PWM2 : Nat := 4
/-- Sentinel closing the enumeration `IO_IDX`. -/
def IO_IDX_MAX : Nat := 5

/-- One entry of the pin table (`IO_PIN`): the port (its register block's
address) and the pin mask within the port. -/
structure IO_PIN where
  port : Nat
  pin : Nat
  deriving DecidableEq, Repr

/-- A call into the vendor GPIO library, with its arguments. -/
inductive GpioCall where
  | init (port pin : Nat) (mode : IO_MODE)
  | writeHigh (port pin : Nat)
  | writeLow (port pin : Nat)
  | readInputPin (port pin : Nat)
  deriving DecidableEq, Repr

/-- The vendor GPIO entry points `io.c` calls, over a hardware state `HW`. -/
structure Vendor (HW : Type) where
  GPIO_Init : HW → Nat → Nat → IO_MODE → HW
  GPIO_WriteHigh : HW → Nat → Nat → HW
  GPIO_WriteLow : HW → Nat → Nat → HW
  GPIO_ReadInputPin : HW → Nat → Nat → Nat

/-- Hardware state plus the vendor GPIO calls issued so far (oldest first). -/
structure World (HW : Type) where
  hw : HW
  calls : List GpioCall

variable {HW : Type}

/-- Issue `GPIO_Init(port, pin, mode)`. -/
def World.doInit (V : Vendor HW) (w : World HW) (port pin : Nat) (mode : IO_MODE) :
    World HW :=
  { hw := V.GPIO_Init w.hw port pin mode, calls := w.calls ++ [GpioCall.init port pin mode] }

/-- Issue `GPIO_WriteHigh(port, pin)`. -/
def World.doWriteHigh (V : Vendor HW) (w : World HW) (port pin : Nat) : World HW :=
  { hw := V.GPIO_WriteHigh w.hw port pin, calls := w.calls ++ [GpioCall.writeHigh port pin] }

/-- Issue `GPIO_WriteLow(port, pin)`. -/
def World.doWriteLow (V : Vendor HW) (w : World HW) (port pin : Nat) : World HW :=
  { hw := V.GPIO_WriteLow w.hw port pin, calls := w.calls ++ [GpioCall.writeLow port pin] }

/-- Issue `GPIO_ReadInputPin(port, pin)`: the value returned, and the world
with the call recorded (a read leaves the hardware state as it is). -/
def World.doReadInputPin (V : Vendor HW) (w : World HW) (port pin : Nat) :
    Nat × World HW :=
  (V.GPIO_ReadInputPin w.hw port pin,
   { hw := w.hw, calls := w.calls ++ [GpioCall.readInputPin port pin] })

/-! ## GPIO: operations (`io.c`) -/

/-- Embedding of `IO_Init` (`io.c`, lines 20-28). -/
def IO_Init (V : Vendor HW) (_ios : Nat → IO_PIN) (idx : Nat) (mode : IO_MODE)
    (w : World HW) : IO_Result × World HW :=
  if idx ≥ IO_IDX_MAX then
    (IO_Result.IO_RESULT_INVALID_PIN, w)
  else
    (IO_Result.IO_RESULT_OK, w.doInit V (_ios idx).port (_ios idx).pin mode)

/-- Embedding of `IO_Write` (`io.c`, lines 37-49). -/
def IO_Write (V : Vendor HW) (_ios : Nat → IO_PIN) (idx : Nat) (val : Int)
    (w : World HW) : IO_Result × World HW :=
  if idx ≥ IO_IDX_MAX then
    (IO_Result.IO_RESULT_INVALID_PIN, w)
  else if val ≠ 0 then
    (IO_Result.IO_RESULT_OK, w.doWriteHigh V (_ios idx).port (_ios idx).pin)
  else
    (IO_Result.IO_RESULT_OK, w.doWriteLow V (_ios idx).port (_ios idx).pin)

/-- Embedding of `IO_Read` (`io.c`, lines 58-66).  The middle component is the
pointee of `pValue` after the call. -/
def IO_Read (V : Vendor HW) (_ios : Nat → IO_PIN) (idx : Nat) (pValue : Option Int)
    (w : World HW) : IO_Result × Option Int × World HW :=
  if idx ≥ IO_IDX_MAX ∨ pValue = none then
    (IO_Result.IO_RESULT_INVALID_PARAM, pValue, w)
  else
    let r := w.doReadInputPin V (_ios idx).port (_ios idx).pin
    (IO_Result.IO_RESULT_OK, some (r.1 : Int), r.2)

/-- C logical negation `!v` on an `int`. -/
def lnot (v : Int) : Int := if v = 0 then 1 else 0

/-- The part of `IO_Toggle` after its call to `IO_Read` (`io.c`, lines 82-86):
`result` and `currentValue` are what the read step left behind. -/
def IO_Toggle_afterRead (V : Vendor HW) (_ios : Nat → IO_PIN) (idx : Nat)
    (result : IO_Result) (currentValue : Int) (w : World HW) : IO_Result × World HW :=
  if result ≠ IO_Result.IO_RESULT_OK then
    (result, w)
  else
    IO_Write V _ios idx (lnot currentValue) w

/-- Embedding of `IO_Toggle` (`io.c`, lines 74-87).  The local `currentValue`
is uninitialised when its address is passed to `IO_Read`; it is given the
content `0` here, which is never read before `IO_Read` overwrites it. -/
def IO_Toggle (V : Vendor HW) (_ios : Nat → IO_PIN) (idx : Nat) (w : World HW) :
    IO_Result × World HW :=
  if idx ≥ IO_IDX_MAX then
    (IO_Result.IO_RESULT_INVALID_PIN, w)
  else
    let r := IO_Read V _ios idx (some 0) w
    IO_Toggle_afterRead V _ios idx r.1 (r.2.1.getD 0) r.2.2

/-! ## Reference vendor model

The vendor peripheral library is outside the sources.  The model below gives
its four GPIO entry points the register-level behaviour of the STM8S standard
peripheral library (`stm8s_gpio.c`) on the STM8S GPIO port: set and clear bits
of `ODR`, `DDR`, `CR1`, `CR2`, and read `IDR` masked with the pin. -/

/-- Modelled from the spec: the GPIO register block (`GPIO_TypeDef`) belongs
to the vendor library, which is absent from the sources.  `ODR`, `DDR`, `CR1`,
`CR2` are the writable 8-bit registers; `PAD` is the level applied to each pin
from outside the chip, which the input register shows for every pin the port
does not drive. -/
structure GPIO_TypeDef where
  ODR : Nat
  DDR : Nat
  CR1 : Nat
  CR2 : Nat
  PAD : Nat
  deriving DecidableEq, Repr

/-- Eight-bit complement `(uint8_t)(~m)`. -/
def compl8 (m : Nat) : Nat := (m % 256) ^^^ 255

/-- Modelled from the spec: the input data register `IDR` of a port ("read
port/pin input level").  A pin is driven by the port when it is an output
(`DDR` bit set) in push-pull (`CR1` bit set), or in open drain with a low
output latch; a driven pin shows its `ODR` bit, any other pin shows `PAD`. -/
def GPIO_TypeDef.IDR (g : GPIO_TypeDef) : Nat :=
  let driven := g.DDR &&& (g.CR1 ||| compl8 g.ODR)
  (g.ODR &&& driven) ||| (g.PAD &&& compl8 driven)

/-- Modelled from the spec: numeric value of the vendor mode constant each
`IO_MODE` enumerator is defined as in `io.h` (`GPIO_MODE_IN_FL_NO_IT`,
`GPIO_MODE_IN_PU_NO_IT`, `GPIO_MODE_OUT_PP_LOW_FAST`,
`GPIO_MODE_OUT_OD_LOW_FAST`, `GPIO_MODE_OUT_PP_HIGH_FAST`); the constants are
declared in the absent vendor header. -/
def IO_MODE.code : IO_MODE → Nat
  | IO_MODE.IO_MODE_INPUT => 0x00
  | IO_MODE.IO_MODE_INPUT_PU => 0x40
  | IO_MODE.IO_MODE_OUTPUT => 0xE0
  | IO_MODE.IO_MODE_OUTPUT_OD => 0xA0
  | IO_MODE.IO_MODE_OUTPUT_PP_HIGH => 0xF0

/-- Set (`b = true`) or clear the bits `m` of the 8-bit register value `r`. -/
def setBits (b : Bool) (r m : Nat) : Nat :=
  if b then r ||| (m % 256) else r &&& compl8 m

/-- Modelled from the spec: vendor `GPIO_Init` on one register block
("configure GPIO port/pin with electrical mode").  Mode bit `0x80` selects
output, `0x10` the initial output level, `0x40` pull-up / push-pull, `0x20`
interrupt / fast slope. -/
def GPIO_TypeDef.init (g : GPIO_TypeDef) (pin : Nat) (mode : IO_MODE) : GPIO_TypeDef :=
  let out := mode.code &&& 0x80 ≠ 0
  { ODR := if out then setBits (mode.code &&& 0x10 ≠ 0) g.ODR pin else g.ODR
    DDR := setBits out g.DDR pin
    CR1 := setBits (mode.code &&& 0x40 ≠ 0) g.CR1 pin
    CR2 := setBits (mode.code &&& 0x20 ≠ 0) g.CR2 pin
    PAD := g.PAD }

/-- Hardware state of the reference model: one register block per port
address. -/
abbrev RefHW : Type := Nat → GPIO_TypeDef

/-- Replace the register block of `port`. -/
def RefHW.set (hw : RefHW) (port : Nat) (g : GPIO_TypeDef) : RefHW :=
  fun q => if q = port then g else hw q

/-- Modelled from the spec: the vendor GPIO entry points, which are absent
from the sources ("configure GPIO port/pin with electrical mode", "drive
port/pin high/low", "read port/pin input level"), with the behaviour of the
STM8S standard peripheral library: `GPIO_WriteHigh` ors the pin mask into
`ODR`, `GPIO_WriteLow` clears it, `GPIO_ReadInputPin` returns `IDR & pin`. -/
def refVendor : Vendor RefHW where
  GPIO_Init hw port pin mode := hw.set port ((hw port).init pin mode)
  GPIO_WriteHigh hw port pin := hw.set port { hw port with ODR := setBits true (hw port).ODR pin }
  GPIO_WriteLow hw port pin := hw.set port { hw port with ODR := setBits false (hw port).ODR pin }
  GPIO_ReadInputPin hw port pin := (hw port).IDR &&& (pin % 256)

/-- All registers and pads of every port at zero (the reset state of the
output latches, with every pad held low). -/
def refReset : RefHW := fun _ => { ODR := 0, DDR := 0, CR1 := 0, CR2 := 0, PAD := 0 }

/-- A pin table for the reference model: LED on port B pin 5, UART1 RX on
port D pin 6, UART1 TX on port D pin 5, AIN2 on port C pin 4, PWM2 on port D
pin 3 (port addresses `0x5005`, `0x500A`, `0x500F`; pin masks `1 <<< n`). -/
def refIos (idx : Nat) : IO_PIN :=
  match idx with
  | 0 => { port := 0x5005, pin := 0x20 }
  | 1 => { port := 0x500F, pin := 0x40 }
  | 2 => { port := 0x500F, pin := 0x20 }
  | 3 => { port := 0x500A, pin := 0x10 }
  | _ => { port := 0x500F, pin := 0x08 }

/-- The reference world at reset, with no vendor call issued yet. -/
def refWorld : World RefHW := { hw := refReset, calls := [] }

/-- A call from the system module into the vendor clock / timer library, with
the constant arguments `system.c` passes. -/
inductive SysCall where
  | CLK_HSIPrescalerConfig_HSIDIV1
  | CLK_PeripheralClockConfig_TIMER4_ENABLE
  | TIM4_TimeBaseInit_PRESCALER_128 (period : Nat)
  | TIM4_ClearFlag_UPDATE
  | TIM4_ITConfig_UPDATE_ENABLE
  | TIM4_Cmd_ENABLE
  deriving DecidableEq, Repr

/-- State of the system module: the file-scope counter `_TmTick` (a
`clock_t`, i.e. `uint32_t`) and the vendor clock / timer calls issued so far
(oldest first). -/
structure SysState where
  _TmTick : Nat
  periph : List SysCall
  deriving DecidableEq, Repr

/-- State at program start: `static volatile clock_t _TmTick = 0;`
(`system.c`, line 4), no vendor call issued. -/
def Sys_start : SysState := { _TmTick := 0, periph := [] }

/-- Embedding of `Sys_IoInit` (`system.c`, lines 6-9): an empty body. -/
def Sys_IoInit (s : SysState) : SysState := s

/-- Embedding of `Sys_ClockInit` (`system.c`, lines 11-18). -/
def Sys_ClockInit (s : SysState) : SysState :=
  { s with periph := s.periph ++ [SysCall.CLK_HSIPrescalerConfig_HSIDIV1] }

/-- Embedding of `Sys_TickInit` (`system.c`, lines 20-28). -/
def Sys_TickInit (s : SysState) : SysState :=
  { s with periph := s.periph ++
      [SysCall.CLK_PeripheralClockConfig_TIMER4_ENABLE,
       SysCall.TIM4_TimeBaseInit_PRESCALER_128 124,
       SysCall.TIM4_ClearFlag_UPDATE,
       SysCall.TIM4_ITConfig_UPDATE_ENABLE,
       SysCall.TIM4_Cmd_ENABLE] }

/-- Embedding of `Sys_ClockTick` (`system.c`, lines 30-33): `++_TmTick` on a
`uint32_t`. -/
def Sys_ClockTick (s : SysState) : SysState :=
  { s with _TmTick := (s._TmTick + 1) % 2 ^ 32 }

/-- Embedding of `clock` (`system.c`, lines 35-38): the value returned and the
state after the call. -/
def clock (s : SysState) : Nat × SysState := (s._TmTick, s)

/-- Subtraction of two `uint32_t` values: `(a - b) mod 2 ^ 32`. -/
def sub32 (a b : Nat) : Nat := (a % 2 ^ 32 + 2 ^ 32 - b % 2 ^ 32) % 2 ^ 32

/-- The loop of `DelayMs` (`system.c`, line 43), `while (clock() - start < ms);`,
over a tick stream in which the timer interrupt calls `Sys_ClockTick` exactly once
between two consecutive polls.  `fuel` bounds the number of polls, `ticks`
counts the `Sys_ClockTick` invocations made since `DelayMs` was entered.  The
result is `none` when the loop has not exited within `fuel` polls, otherwise
the state at exit and the number of ticks that had elapsed. -/
def DelayMs_loop (start ms : Nat) : Nat → SysState → Nat → Option (SysState × Nat)
  | 0, _, _ => none
  | fuel + 1, s, ticks =>
    let now := clock s
    if sub32 now.1 start < ms then
      DelayMs_loop start ms fuel (Sys_ClockTick now.2) (ticks + 1)
    else
      some (now.2, ticks)

/-- Embedding of `DelayMs` (`system.c`, lines 40-44): `start = clock()`, then
the polling loop. -/
def DelayMs (ms : Nat) (fuel : Nat) (s : SysState) : Option (SysState × Nat) :=
  let start := clock s
  DelayMs_loop start.1 ms fuel start.2 0

/-! ## ADC averaging (`adc.c`) -/

/-- The vendor ADC entry points `adc.c` calls in a conversion, over a
converter state `A`.  Polling the end-of-conversion flag returns the flag and
the converter state at the next poll (time passes between polls);
`ADC1_GetConversionValue` returns a `uint16_t`. -/
structure AdcVendor (A : Type) where
  ADC1_StartConversion : A → A
  ADC1_GetFlagStatus_EOC : A → Bool × A
  ADC1_GetConversionValue : A → Nat

/-- Conversion of an unsigned value to the 16-bit `int` of the target. -/
def toInt16 (n : Nat) : Int :=
  if n % 65536 < 32768 then ((n % 65536 : Nat) : Int) else ((n % 65536 : Nat) : Int) - 65536

/-- Conversion of an `int` to `uint32_t`. -/
def toU32 (i : Int) : Nat := (i % 4294967296).toNat

/-- Embedding of `AY_ADC_Start` (`adc.c`, lines 52-55). -/
def AY_ADC_Start {A : Type} (V : AdcVendor A) (a : A) : A :=
  V.ADC1_StartConversion a

/-- Embedding of `AY_ADC_Result` (`adc.c`, lines 61-64). -/
def AY_ADC_Result {A : Type} (V : AdcVendor A) (a : A) : Nat :=
  V.ADC1_GetConversionValue a % 65536

/-- The wait loop of `AY_ADC_ConvertS` (`adc.c`, lines 76-79),
`while (!ADC1_GetFlagStatus(ADC1_FLAG_EOC))`, with at most `fuel` polls:
`none` when the flag was not seen set within `fuel` polls. -/
def AY_ADC_waitEOC {A : Type} (V : AdcVendor A) : Nat → A → Option A
  | 0, _ => none
  | fuel + 1, a =>
    let r := V.ADC1_GetFlagStatus_EOC a
    if r.1 then some r.2 else AY_ADC_waitEOC V fuel r.2

/-- Embedding of `AY_ADC_ConvertS` (`adc.c`, lines 70-82): start, wait for the
end-of-conversion flag, return the result as an `int`. -/
def AY_ADC_ConvertS {A : Type} (V : AdcVendor A) (fuel : Nat) (a : A) : Option (Int × A) :=
  match AY_ADC_waitEOC V fuel (AY_ADC_Start V a) with
  | none => none
  | some a1 => some (toInt16 (AY_ADC_Result V a1), a1)

/-- The `for` loop of `AY_ADC_Convert` (`adc.c`, lines 93-96) with `n`
iterations left: `totRes += AY_ADC_ConvertS();` on a `uint32_t`. -/
def AY_ADC_Convert_loop {A : Type} (V : AdcVendor A) (fuel : Nat) :
    Nat → Nat → A → Option (Nat × A)
  | 0, totRes, a => some (totRes, a)
  | n + 1, totRes, a =>
    match AY_ADC_ConvertS V fuel a with
    | none => none
    | some (r, a1) => AY_ADC_Convert_loop V fuel n ((totRes + toU32 r) % 2 ^ 32) a1

/-- The constant `nSamples` of `AY_ADC_Convert` (`adc.c`, line 91). -/
def nSamples : Nat := 10

/-- Embedding of `AY_ADC_Convert` (`adc.c`, lines 88-99): `totRes = 0`, the
loop over `nSamples` conversions, then `(int)(totRes / nSamples)`. -/
def AY_ADC_Convert {A : Type} (V : AdcVendor A) (fuel : Nat) (a : A) : Option (Int × A) :=
  match AY_ADC_Convert_loop V fuel nSamples 0 a with
  | none => none
  | some (totRes, a1) => some (toInt16 (totRes / nSamples), a1)

/-- The values returned by `n` calls of `AY_ADC_ConvertS` made one after the
other, in order, and the converter state after the last; `none` when one of
them does not return within `fuel` polls. -/
def AY_ADC_ConvertS_seq {A : Type} (V : AdcVendor A) (fuel : Nat) :
    Nat → A → Option (List Int × A)
  | 0, a => some ([], a)
  | n + 1, a =>
    match AY_ADC_ConvertS V fuel a with
    | none => none
    | some (r, a1) =>
      match AY_ADC_ConvertS_seq V fuel n a1 with
      | none => none
      | some (rs, a2) => some (r :: rs, a2)

/-- Modelled from the spec: the vendor ADC library is absent from the sources
(the spec only says that "ADC conversion completion" is a busy-wait on "a
status flag").  State of an example converter used to instantiate the
results: the values it will produce for the conversions to come, its data
register, and the number of polls left before the end-of-conversion flag
reads set. -/
structure RefAdc where
  queue : List Nat
  DR : Nat
  busy : Nat
  deriving DecidableEq, Repr

/-- Modelled from the spec: an example converter.  Starting a conversion
latches the next value of the queue and keeps the flag clear for two polls. -/
def refAdcVendor : AdcVendor RefAdc where
  ADC1_StartConversion a :=
    match a.queue with
    | [] => { a with busy := 2 }
    | v :: q => { queue := q, DR := v, busy := 2 }
  ADC1_GetFlagStatus_EOC a :=
    if a.busy = 0 then (true, a) else (false, { a with busy := a.busy - 1 })
  ADC1_GetConversionValue a := a.DR

/-- An example converter about to produce ten samples between `3` and `1023`. -/
def refAdc : RefAdc :=
  { queue := [1023, 1000, 512, 3, 700, 701, 702, 1023, 40, 41], DR := 0, busy := 0 }

end STM8Core


namespace STM8Core

variable {HW : Type}

/-! ## GPIO: range check and dispatch -/

/-- `IO_Read` on a non-null pointer and a valid identifier: it stores the
vendor's return value as it is, and records one read of the table entry. -/
theorem IO_Read_valid_eq (V : Vendor HW) (_ios : Nat → IO_PIN) (idx : Nat) (c : Int)
    (w : World HW) (h : idx < IO_IDX_MAX) :
    IO_Read V _ios idx (some c) w =
      (IO_Result.IO_RESULT_OK,
       some (V.GPIO_ReadInputPin w.hw (_ios idx).port (_ios idx).pin : Int),
       { hw := w.hw,
         calls := w.calls ++ [GpioCall.readInputPin (_ios idx).port (_ios idx).pin] }) := by
  have h' : ¬ (idx ≥ IO_IDX_MAX) := Nat.not_le.mpr h
  simp [IO_Read, World.doReadInputPin, h']

/-- `IO_Read` when its guard fires: nothing is stored, nothing is called. -/
theorem IO_Read_rejected_eq (V : Vendor HW) (_ios : Nat → IO_PIN) (idx : Nat)
    (pValue : Option Int) (w : World HW) (h : idx ≥ IO_IDX_MAX ∨ pValue = none) :
    IO_Read V _ios idx pValue w = (IO_Result.IO_RESULT_INVALID_PARAM, pValue, w) := by
  simp [IO_Read, h]

/-- C1 (divergence).  For an identifier at or beyond `IO_IDX_MAX`, `IO_Init`,
`IO_Write` and `IO_Toggle` return `IO_RESULT_INVALID_PIN`, but `IO_Read`
returns `IO_RESULT_INVALID_PARAM`, which is a different code.  None of the
four issues a vendor call, changes the hardware state or stores through the
output pointer. -/
theorem IO_Read_out_of_range_reports_INVALID_PARAM (V : Vendor HW) (_ios : Nat → IO_PIN)
    (idx : Nat) (mode : IO_MODE) (val : Int) (pValue : Option Int) (w : World HW)
    (h : IO_IDX_MAX ≤ idx) :
    IO_Read V _ios idx pValue w = (IO_Result.IO_RESULT_INVALID_PARAM, pValue, w) ∧
    (IO_Read V _ios idx pValue w).1 ≠ IO_Result.IO_RESULT_INVALID_PIN ∧
    IO_Init V _ios idx mode w = (IO_Result.IO_RESULT_INVALID_PIN, w) ∧
    IO_Write V _ios idx val w = (IO_Result.IO_RESULT_INVALID_PIN, w) ∧
    IO_Toggle V _ios idx w = (IO_Result.IO_RESULT_INVALID_PIN, w) := by
  have hge : idx ≥ IO_IDX_MAX := h
  have hr := IO_Read_rejected_eq V _ios idx pValue w (Or.inl hge)
  refine ⟨hr, ?_, ?_, ?_, ?_⟩
  · rw [hr]; simp
  · simp [IO_Init, hge]
  · simp [IO_Write, hge]
  · simp [IO_Toggle, hge]

/-- Instance of the C1 divergence at the sentinel `IO_IDX_MAX = 5` on the
reference model. -/
theorem IO_Read_out_of_range_reports_INVALID_PARAM_witness :
    IO_IDX_MAX ≤ 5 ∧
    (IO_Read refVendor refIos 5 (some 0) refWorld
        = (IO_Result.IO_RESULT_INVALID_PARAM, some 0, refWorld) ∧
     (IO_Read refVendor refIos 5 (some 0) refWorld).1 ≠ IO_Result.IO_RESULT_INVALID_PIN ∧
     IO_Init refVendor refIos 5 IO_MODE.IO_MODE_OUTPUT refWorld
        = (IO_Result.IO_RESULT_INVALID_PIN, refWorld) ∧
     IO_Write refVendor refIos 5 1 refWorld = (IO_Result.IO_RESULT_INVALID_PIN, refWorld) ∧
     IO_Toggle refVendor refIos 5 refWorld = (IO_Result.IO_RESULT_INVALID_PIN, refWorld)) :=
  ⟨by decide,
   IO_Read_out_of_range_reports_INVALID_PARAM refVendor refIos 5 IO_MODE.IO_MODE_OUTPUT 1
     (some 0) refWorld (by decide)⟩

/-- C2.  For a valid identifier, `IO_Init` and `IO_Write` return
`IO_RESULT_OK` and issue exactly one vendor call, on the port and pin of the
table entry `_ios[idx]`: `GPIO_Init` with the given mode for `IO_Init`,
`GPIO_WriteHigh` for `IO_Write` with a non-zero value, `GPIO_WriteLow` for
`IO_Write` with zero. -/
theorem IO_Init_IO_Write_valid (V : Vendor HW) (_ios : Nat → IO_PIN) (idx : Nat)
    (mode : IO_MODE) (val : Int) (w : World HW) (h : idx < IO_IDX_MAX) :
    IO_Init V _ios idx mode w =
      (IO_Result.IO_RESULT_OK,
       { hw := V.GPIO_Init w.hw (_ios idx).port (_ios idx).pin mode,
         calls := w.calls ++ [GpioCall.init (_ios idx).port (_ios idx).pin mode] }) ∧
    (val ≠ 0 → IO_Write V _ios idx val w =
      (IO_Result.IO_RESULT_OK,
       { hw := V.GPIO_WriteHigh w.hw (_ios idx).port (_ios idx).pin,
         calls := w.calls ++ [GpioCall.writeHigh (_ios idx).port (_ios idx).pin] })) ∧
    (val = 0 → IO_Write V _ios idx val w =
      (IO_Result.IO_RESULT_OK,
       { hw := V.GPIO_WriteLow w.hw (_ios idx).port (_ios idx).pin,
         calls := w.calls ++ [GpioCall.writeLow (_ios idx).port (_ios idx).pin] })) := by
  have h' : ¬ (idx ≥ IO_IDX_MAX) := Nat.not_le.mpr h
  refine ⟨?_, ?_, ?_⟩
  · simp [IO_Init, World.doInit, h']
  · intro hv
    simp [IO_Write, World.doWriteHigh, h', hv]
  · intro hv
    simp [IO_Write, World.doWriteLow, h', hv]

/-- Instance of C2 for the LED pin (port `0x5005`, mask `0x20`) on the
reference model. -/
theorem IO_Init_IO_Write_valid_witness :
    IOP_LED < IO_IDX_MAX ∧
    (IO_Init refVendor refIos IOP_LED IO_MODE.IO_MODE_OUTPUT refWorld).1
      = IO_Result.IO_RESULT_OK ∧
    (IO_Init refVendor refIos IOP_LED IO_MODE.IO_MODE_OUTPUT refWorld).2.calls
      = [GpioCall.init 0x5005 0x20 IO_MODE.IO_MODE_OUTPUT] ∧
    (IO_Write refVendor refIos IOP_LED 1 refWorld).2.calls = [GpioCall.writeHigh 0x5005 0x20] :=
  have t := IO_Init_IO_Write_valid refVendor refIos IOP_LED IO_MODE.IO_MODE_OUTPUT 1 refWorld
    (by decide)
  ⟨by decide, by rw [t.1], by rw [t.1]; rfl, by rw [t.2.1 (by decide)]; rfl⟩

/-- C4.  `IO_Read` returns `IO_RESULT_OK` exactly when the identifier is below
`IO_IDX_MAX` and the output pointer is non-null; a valid identifier with a
null pointer gives `IO_RESULT_INVALID_PARAM`; on every return other than
`IO_RESULT_OK` the pointee is as before and the world (hardware state and
vendor call log) is unchanged, so no vendor read was issued. -/
theorem IO_Read_ok_iff (V : Vendor HW) (_ios : Nat → IO_PIN) (idx : Nat)
    (pValue : Option Int) (w : World HW) :
    ((IO_Read V _ios idx pValue w).1 = IO_Result.IO_RESULT_OK ↔
        idx < IO_IDX_MAX ∧ pValue ≠ none) ∧
    (idx < IO_IDX_MAX ∧ pValue = none →
        (IO_Read V _ios idx pValue w).1 = IO_Result.IO_RESULT_INVALID_PARAM) ∧
    ((IO_Read V _ios idx pValue w).1 ≠ IO_Result.IO_RESULT_OK →
        (IO_Read V _ios idx pValue w).2.1 = pValue ∧
        (IO_Read V _ios idx pValue w).2.2 = w) := by
  by_cases hg : idx ≥ IO_IDX_MAX ∨ pValue = none
  · have hr := IO_Read_rejected_eq V _ios idx pValue w hg
    rw [hr]
    refine ⟨⟨fun hc => absurd hc (by simp), fun hc => ?_⟩, fun _ => rfl, fun _ => ⟨rfl, rfl⟩⟩
    rcases hg with hg | hg
    · exact absurd hc.1 (Nat.not_lt.mpr hg)
    · exact absurd hg hc.2
  · have hlt : idx < IO_IDX_MAX := Nat.lt_of_not_le (fun hc => hg (Or.inl hc))
    have hne : pValue ≠ none := fun hc => hg (Or.inr hc)
    obtain ⟨c, rfl⟩ := Option.ne_none_iff_exists'.mp hne
    rw [IO_Read_valid_eq V _ios idx c w hlt]
    exact ⟨⟨fun _ => ⟨hlt, hne⟩, fun _ => rfl⟩, fun hc => absurd hc.2 hne,
      fun hc => absurd rfl hc⟩

/-- `IO_Toggle` on a valid identifier, by the value the vendor read returns:
one read then `GPIO_WriteHigh` when it is zero, one read then `GPIO_WriteLow`
when it is not. -/
theorem IO_Toggle_valid_eq (V : Vendor HW) (_ios : Nat → IO_PIN) (idx : Nat) (w : World HW)
    (h : idx < IO_IDX_MAX) :
    (V.GPIO_ReadInputPin w.hw (_ios idx).port (_ios idx).pin = 0 →
      IO_Toggle V _ios idx w =
        (IO_Result.IO_RESULT_OK,
         { hw := V.GPIO_WriteHigh w.hw (_ios idx).port (_ios idx).pin,
           calls := w.calls ++ [GpioCall.readInputPin (_ios idx).port (_ios idx).pin,
                                GpioCall.writeHigh (_ios idx).port (_ios idx).pin] })) ∧
    (V.GPIO_ReadInputPin w.hw (_ios idx).port (_ios idx).pin ≠ 0 →
      IO_Toggle V _ios idx w =
        (IO_Result.IO_RESULT_OK,
         { hw := V.GPIO_WriteLow w.hw (_ios idx).port (_ios idx).pin,
           calls := w.calls ++ [GpioCall.readInputPin (_ios idx).port (_ios idx).pin,
                                GpioCall.writeLow (_ios idx).port (_ios idx).pin] })) := by
  have h' : ¬ (idx ≥ IO_IDX_MAX) := Nat.not_le.mpr h
  have hr := IO_Read_valid_eq V _ios idx 0 w h
  constructor
  · intro h0
    simp [IO_Toggle, IO_Toggle_afterRead, IO_Write, World.doWriteHigh, lnot, h', hr, h0]
  · intro h0
    simp [IO_Toggle, IO_Toggle_afterRead, IO_Write, World.doWriteLow, lnot, h', hr, h0]

/-- C5.  For a valid identifier, `IO_Toggle` performs one read of the table
entry followed by one write to it: the read step returns `IO_RESULT_OK`, the
result is that of `IO_Write` with the inverted value on the world the read
left, which is `GPIO_WriteHigh` when the value read is zero and
`GPIO_WriteLow` when it is non-zero.  The code after the read step returns any
result other than `IO_RESULT_OK` unchanged, with no further vendor call. -/
theorem IO_Toggle_valid (V : Vendor HW) (_ios : Nat → IO_PIN) (idx : Nat) (w : World HW)
    (h : idx < IO_IDX_MAX) :
    (IO_Read V _ios idx (some 0) w).1 = IO_Result.IO_RESULT_OK ∧
    IO_Toggle V _ios idx w =
      IO_Write V _ios idx
        (lnot (V.GPIO_ReadInputPin w.hw (_ios idx).port (_ios idx).pin : Int))
        (IO_Read V _ios idx (some 0) w).2.2 ∧
    (V.GPIO_ReadInputPin w.hw (_ios idx).port (_ios idx).pin = 0 →
      IO_Toggle V _ios idx w =
        (IO_Result.IO_RESULT_OK,
         { hw := V.GPIO_WriteHigh w.hw (_ios idx).port (_ios idx).pin,
           calls := w.calls ++ [GpioCall.readInputPin (_ios idx).port (_ios idx).pin,
                                GpioCall.writeHigh (_ios idx).port (_ios idx).pin] })) ∧
    (V.GPIO_ReadInputPin w.hw (_ios idx).port (_ios idx).pin ≠ 0 →
      IO_Toggle V _ios idx w =
        (IO_Result.IO_RESULT_OK,
         { hw := V.GPIO_WriteLow w.hw (_ios idx).port (_ios idx).pin,
           calls := w.calls ++ [GpioCall.readInputPin (_ios idx).port (_ios idx).pin,
                                GpioCall.writeLow (_ios idx).port (_ios idx).pin] })) ∧
    (∀ (result : IO_Result) (currentValue : Int) (w1 : World HW),
      result ≠ IO_Result.IO_RESULT_OK →
        IO_Toggle_afterRead V _ios idx result currentValue w1 = (result, w1)) := by
  have h' : ¬ (idx ≥ IO_IDX_MAX) := Nat.not_le.mpr h
  have hr := IO_Read_valid_eq V _ios idx 0 w h
  have he := IO_Toggle_valid_eq V _ios idx w h
  refine ⟨by rw [hr], ?_, he.1, he.2, ?_⟩
  · simp [IO_Toggle, IO_Toggle_afterRead, h', hr]
  · intro result currentValue w1 hne
    simp [IO_Toggle_afterRead, hne]

/-- Instance of C5 for the LED pin on the reference model at reset: the pin
reads low, so the toggle is one read followed by one `GPIO_WriteHigh`. -/
theorem IO_Toggle_valid_witness :
    IOP_LED < IO_IDX_MAX ∧
    (IO_Toggle refVendor refIos IOP_LED refWorld).1 = IO_Result.IO_RESULT_OK ∧
    (IO_Toggle refVendor refIos IOP_LED refWorld).2.calls
      = [GpioCall.readInputPin 0x5005 0x20, GpioCall.writeHigh 0x5005 0x20] :=
  have t := (IO_Toggle_valid refVendor refIos IOP_LED refWorld (by decide)).2.2.1 (by decide)
  ⟨by decide, by rw [t], by rw [t]; rfl⟩

end STM8Core

namespace STM8Core

variable {HW : Type}

/-! ## GPIO: what a read returns after a write -/

/-- C3 (divergence).  On the reference model, with the LED on pin mask `0x20`:
after `IO_Init(IOP_LED, IO_MODE_OUTPUT)` and `IO_Write(IOP_LED, 1)`,
`IO_Read` returns `IO_RESULT_OK` and stores `32`, the masked input register
bit that `GPIO_ReadInputPin` returns, not `1`; after `IO_Write(IOP_LED, 0)` it
stores `0`.  The same `32` is stored for the UART transmit pin (mask `0x20`)
configured as `uart.c` configures it, `IO_MODE_OUTPUT_PP_HIGH`, and written
high. -/
theorem IO_Read_after_write_high_stores_pin_mask :
    (IO_Read refVendor refIos IOP_LED (some 0)
      (IO_Write refVendor refIos IOP_LED 1
        (IO_Init refVendor refIos IOP_LED IO_MODE.IO_MODE_OUTPUT refWorld).2).2).1
      = IO_Result.IO_RESULT_OK ∧
    (IO_Read refVendor refIos IOP_LED (some 0)
      (IO_Write refVendor refIos IOP_LED 1
        (IO_Init refVendor refIos IOP_LED IO_MODE.IO_MODE_OUTPUT refWorld).2).2).2.1
      = some 32 ∧
    (IO_Read refVendor refIos IOP_LED (some 0)
      (IO_Write refVendor refIos IOP_LED 0
        (IO_Write refVendor refIos IOP_LED 1
          (IO_Init refVendor refIos IOP_LED IO_MODE.IO_MODE_OUTPUT refWorld).2).2).2).2.1
      = some 0 ∧
    (IO_Read refVendor refIos IOP_U1TX (some 0)
      (IO_Write refVendor refIos IOP_U1TX 1
        (IO_Init refVendor refIos IOP_U1TX IO_MODE.IO_MODE_OUTPUT_PP_HIGH refWorld).2).2).2.1
      = some 32 := by
  decide

end STM8Core

namespace STM8Core

/-! ## Software clock -/

/-- Only the counter changes under repeated ticks. -/
theorem periph_iterate_Sys_ClockTick (k : Nat) (s : SysState) :
    (Sys_ClockTick^[k] s).periph = s.periph := by
  induction k generalizing s with
  | zero => rfl
  | succ k ih => rw [Function.iterate_succ_apply, ih]; rfl

/-- The counter after `k` ticks, from a counter within the range of
`uint32_t`. -/
theorem tick_iterate_Sys_ClockTick (k : Nat) (s : SysState) (hs : s._TmTick < 2 ^ 32) :
    (Sys_ClockTick^[k] s)._TmTick = (s._TmTick + k) % 2 ^ 32 := by
  induction k generalizing s with
  | zero => simp only [Function.iterate_zero, id_eq]; omega
  | succ k ih =>
    rw [Function.iterate_succ_apply, ih (Sys_ClockTick s) (by simp only [Sys_ClockTick]; omega)]
    simp only [Sys_ClockTick]
    omega

/-- C7.  The counter starts at zero, so `clock` returns `0` before any tick,
also after the three initialisation routines have run;
`Sys_ClockTick` takes the counter from `c` to `(c + 1) mod 2 ^ 32` and leaves
the rest of the state alone; `clock` returns the counter and leaves the state
alone; after `n` ticks from the start `clock` returns `n mod 2 ^ 32`. -/
theorem clock_after_n_ticks :
    (clock Sys_start).1 = 0 ∧
    (clock (Sys_TickInit (Sys_ClockInit (Sys_IoInit Sys_start)))).1 = 0 ∧
    (∀ s : SysState, Sys_ClockTick s =
      { _TmTick := (s._TmTick + 1) % 2 ^ 32, periph := s.periph }) ∧
    (∀ s : SysState, clock s = (s._TmTick, s)) ∧
    (∀ n : Nat, (clock (Sys_ClockTick^[n] Sys_start)).1 = n % 2 ^ 32) := by
  refine ⟨rfl, rfl, fun _ => rfl, fun _ => rfl, fun n => ?_⟩
  have h := tick_iterate_Sys_ClockTick n Sys_start (by decide)
  have h0 : Sys_start._TmTick = 0 := rfl
  rw [h0, Nat.zero_add] at h
  exact h

/-- C8 as stated fails: from `2 ^ 32 - 2`, one below the maximum, a single
tick gives `2 ^ 32 - 1`, not zero. -/
theorem clock_after_tick_from_below_max :
    (clock (Sys_ClockTick { _TmTick := 2 ^ 32 - 2, periph := [] })).1 = 2 ^ 32 - 1 ∧
    (clock (Sys_ClockTick { _TmTick := 2 ^ 32 - 2, periph := [] })).1 ≠ 0 := by
  decide

/-- C8, amended.  From the maximum `2 ^ 32 - 1` a single tick makes `clock`
return zero; from `2 ^ 32 - 2` the first tick gives `2 ^ 32 - 1` and the
second gives zero. -/
theorem clock_wraps_at_max (periph : List SysCall) :
    (clock (Sys_ClockTick { _TmTick := 2 ^ 32 - 1, periph := periph })).1 = 0 ∧
    (clock (Sys_ClockTick { _TmTick := 2 ^ 32 - 2, periph := periph })).1 = 2 ^ 32 - 1 ∧
    (clock (Sys_ClockTick (Sys_ClockTick { _TmTick := 2 ^ 32 - 2, periph := periph }))).1 = 0 := by
  refine ⟨?_, ?_, ?_⟩ <;> simp [clock, Sys_ClockTick]

/-- What the polling loop of `DelayMs` can return: the state it was entered
with, advanced by the ticks counted since. -/
theorem DelayMs_loop_state (start ms : Nat) :
    ∀ (fuel : Nat) (s : SysState) (ticks : Nat) (s1 : SysState) (n : Nat),
      DelayMs_loop start ms fuel s ticks = some (s1, n) →
        ticks ≤ n ∧ s1 = Sys_ClockTick^[n - ticks] s := by
  intro fuel
  induction fuel with
  | zero => intro s ticks s1 n h; simp [DelayMs_loop] at h
  | succ fuel ih =>
    intro s ticks s1 n h
    simp only [DelayMs_loop, clock] at h
    split at h
    · obtain ⟨hle, hs1⟩ := ih _ _ _ _ h
      refine ⟨by omega, ?_⟩
      have e : n - ticks = (n - (ticks + 1)) + 1 := by omega
      rw [hs1, e, Function.iterate_succ_apply]
    · simp only [Option.some.injEq, Prod.mk.injEq] at h
      obtain ⟨rfl, rfl⟩ := h
      simp

/-- C9.  Between two reads separated by `k` ticks with no wraparound
(`t1 + k < 2 ^ 32`) the second read is `t1 + k`, hence at least `t1`.  The
other operations of the module leave the counter as it is: `Sys_IoInit`,
`Sys_ClockInit`, `Sys_TickInit` and `clock` do not touch it, and the state
`DelayMs` returns in is the state it was entered in advanced only by the
`Sys_ClockTick` invocations that occurred meanwhile. -/
theorem clock_monotone_without_wrap (s : SysState) (k : Nat) (h : s._TmTick + k < 2 ^ 32) :
    (clock (Sys_ClockTick^[k] (clock s).2)).1 = (clock s).1 + k ∧
    (clock s).1 ≤ (clock (Sys_ClockTick^[k] (clock s).2)).1 ∧
    (Sys_IoInit s)._TmTick = s._TmTick ∧
    (Sys_ClockInit s)._TmTick = s._TmTick ∧
    (Sys_TickInit s)._TmTick = s._TmTick ∧
    (clock s).2 = s ∧
    (∀ (ms fuel : Nat) (s1 : SysState) (n : Nat),
      DelayMs ms fuel s = some (s1, n) → s1 = Sys_ClockTick^[n] s) := by
  have ht := tick_iterate_Sys_ClockTick k s (by omega)
  have hmod : (s._TmTick + k) % 2 ^ 32 = s._TmTick + k := Nat.mod_eq_of_lt h
  refine ⟨?_, ?_, rfl, rfl, rfl, rfl, ?_⟩
  · simp only [clock, ht, hmod]
  · simp only [clock, ht, hmod]; omega
  · intro ms fuel s1 n hd
    have := (DelayMs_loop_state _ ms fuel s 0 s1 n hd).2
    simpa using this

/-- Instance of C9: two reads `1000` ticks apart, starting from the counter
value `5`. -/
theorem clock_monotone_without_wrap_witness :
    (5 : Nat) + 1000 < 2 ^ 32 ∧
    (clock (Sys_ClockTick^[1000] (clock { _TmTick := 5, periph := [] }).2)).1
      = (clock { _TmTick := 5, periph := [] }).1 + 1000 :=
  ⟨by decide, (clock_monotone_without_wrap { _TmTick := 5, periph := [] } 1000 (by decide)).1⟩

/-- The polling loop of `DelayMs`, entered after `j` ticks with the counter at
`start + j` modulo `2 ^ 32`: it exits after the remaining `ms - j` ticks when
it is given more than `ms - j` polls, and not within `ms - j` polls. -/
theorem DelayMs_loop_exact (start ms : Nat) (hstart : start < 2 ^ 32) (hms : ms < 2 ^ 32) :
    ∀ (fuel : Nat) (s : SysState) (j : Nat), j ≤ ms →
      s._TmTick = (start + j) % 2 ^ 32 →
      (ms - j < fuel →
        DelayMs_loop start ms fuel s j = some (Sys_ClockTick^[ms - j] s, ms)) ∧
      (fuel ≤ ms - j → DelayMs_loop start ms fuel s j = none) := by
  intro fuel
  induction fuel with
  | zero =>
    intro s j _ _
    exact ⟨fun hc => absurd hc (Nat.not_lt_zero _), fun _ => rfl⟩
  | succ fuel ih =>
    intro s j hj hs
    have hsub : sub32 s._TmTick start = j := by
      rw [hs]; unfold sub32; omega
    by_cases hlt : j < ms
    · have hs' : (Sys_ClockTick s)._TmTick = (start + (j + 1)) % 2 ^ 32 := by
        simp only [Sys_ClockTick, hs]; omega
      obtain ⟨ih1, ih2⟩ := ih (Sys_ClockTick s) (j + 1) hlt hs'
      have e : ms - j = (ms - (j + 1)) + 1 := by omega
      constructor
      · intro hf
        simp only [DelayMs_loop, clock, hsub, hlt, if_true]
        rw [ih1 (by omega), e, Function.iterate_succ_apply]
      · intro hf
        simp only [DelayMs_loop, clock, hsub, hlt, if_true]
        exact ih2 (by omega)
    · have hjm : j = ms := by omega
      subst hjm
      constructor
      · intro _
        simp [DelayMs_loop, clock, hsub]
      · intro hf
        omega

/-- C10.  Over a tick stream that advances the counter by one between polls,
for every start value below `2 ^ 32` and every `ms` up to `65535`: given more
than `ms` polls, `DelayMs` returns after exactly `ms` ticks, in the entry
state advanced by `ms` ticks, wraparound included; it has not returned within
`ms` polls or fewer; and whenever it returns, exactly `ms` ticks have
elapsed.  In particular `DelayMs 0` returns at its first poll with no tick. -/
theorem DelayMs_returns_after_exactly_ms_ticks (s : SysState) (ms fuel : Nat)
    (hs : s._TmTick < 2 ^ 32) (hms : ms ≤ 65535) :
    (ms < fuel → DelayMs ms fuel s = some (Sys_ClockTick^[ms] s, ms)) ∧
    (fuel ≤ ms → DelayMs ms fuel s = none) ∧
    (∀ (s1 : SysState) (n : Nat), DelayMs ms fuel s = some (s1, n) → n = ms) ∧
    DelayMs 0 1 s = some (s, 0) := by
  have key := DelayMs_loop_exact s._TmTick ms hs (by omega) fuel s 0 (Nat.zero_le _)
    (by simp only [Nat.add_zero]; omega)
  simp only [Nat.sub_zero] at key
  have key0 := DelayMs_loop_exact s._TmTick 0 hs (by decide) 1 s 0 (Nat.le_refl _)
    (by simp only [Nat.add_zero]; omega)
  refine ⟨key.1, key.2, ?_, ?_⟩
  · intro s1 n hd
    by_cases hf : ms < fuel
    · have := key.1 hf
      simp only [DelayMs, clock] at hd
      rw [this] at hd
      simp only [Option.some.injEq, Prod.mk.injEq] at hd
      exact hd.2.symm
    · have := key.2 (by omega)
      simp only [DelayMs, clock] at hd
      rw [this] at hd
      exact absurd hd (by simp)
  · have := key0.1 (by decide)
    simpa [DelayMs, clock] using this

/-- Instance of C10 across the wraparound: entered at `2 ^ 32 - 2` with
`ms = 3`, `DelayMs` returns after exactly three ticks, with the counter at
`1`, and has not returned within three polls. -/
theorem DelayMs_returns_after_exactly_ms_ticks_witness :
    (2 ^ 32 - 2 : Nat) < 2 ^ 32 ∧ (3 : Nat) ≤ 65535 ∧
    DelayMs 3 4 { _TmTick := 2 ^ 32 - 2, periph := [] }
      = some ({ _TmTick := 1, periph := [] }, 3) ∧
    DelayMs 3 3 { _TmTick := 2 ^ 32 - 2, periph := [] } = none :=
  have t := DelayMs_returns_after_exactly_ms_ticks { _TmTick := 2 ^ 32 - 2, periph := [] } 3 4
    (by decide) (by decide)
  have u := DelayMs_returns_after_exactly_ms_ticks { _TmTick := 2 ^ 32 - 2, periph := [] } 3 3
    (by decide) (by decide)
  ⟨by decide, by decide, by rw [t.1 (by decide)]; decide, u.2.1 (by decide)⟩

end STM8Core

namespace STM8Core

/-! ## ADC averaging -/

/-- Samples of a 10-bit conversion pass unchanged into the `uint32_t`
accumulator. -/
theorem toU32_of_range (r : Int) (h0 : 0 ≤ r) (h1 : r ≤ 1023) : (toU32 r : Int) = r := by
  unfold toU32
  omega

/-- A quotient within the 10-bit range is unchanged by the cast to `int`. -/
theorem toInt16_of_small (n : Nat) (h : n ≤ 1023) : toInt16 n = (n : Int) := by
  unfold toInt16
  have e : n % 65536 = n := Nat.mod_eq_of_lt (by omega)
  rw [e, if_pos (by omega)]

/-- Sum of a list of integers between two bounds. -/
theorem sum_between (lo hi : Int) (rs : List Int) (h : ∀ r ∈ rs, lo ≤ r ∧ r ≤ hi) :
    lo * rs.length ≤ rs.sum ∧ rs.sum ≤ hi * rs.length := by
  induction rs with
  | nil => simp
  | cons r rs ih =>
    have hr := h r (List.mem_cons_self r rs)
    have ih' := ih (fun x hx => h x (List.mem_cons_of_mem r hx))
    simp only [List.sum_cons, List.length_cons, Nat.cast_succ]
    constructor <;> nlinarith [hr.1, hr.2, ih'.1, ih'.2]

/-- The accumulation loop against the sequence of single conversions: when the
`n` conversions return samples in `0..1023` and the accumulator has room for
them, the loop adds exactly their sum, without wrapping. -/
theorem AY_ADC_Convert_loop_eq_sum {A : Type} (V : AdcVendor A) (fuel : Nat) :
    ∀ (n totRes : Nat) (a a1 : A) (rs : List Int),
      AY_ADC_ConvertS_seq V fuel n a = some (rs, a1) →
      (∀ r ∈ rs, 0 ≤ r ∧ r ≤ 1023) →
      totRes + 1023 * n < 2 ^ 32 →
      rs.length = n ∧
      AY_ADC_Convert_loop V fuel n totRes a = some (totRes + rs.sum.toNat, a1) := by
  intro n
  induction n with
  | zero =>
    intro totRes a a1 rs hseq _ _
    simp only [AY_ADC_ConvertS_seq, Option.some.injEq, Prod.mk.injEq] at hseq
    obtain ⟨rfl, rfl⟩ := hseq
    simp [AY_ADC_Convert_loop]
  | succ n ih =>
    intro totRes a a1 rs hseq hrange hroom
    simp only [AY_ADC_ConvertS_seq] at hseq
    cases hc : AY_ADC_ConvertS V fuel a with
    | none => simp [hc] at hseq
    | some p =>
      obtain ⟨r, a2⟩ := p
      simp only [hc] at hseq
      cases hs : AY_ADC_ConvertS_seq V fuel n a2 with
      | none => simp [hs] at hseq
      | some q =>
        obtain ⟨rs1, a3⟩ := q
        simp only [hs, Option.some.injEq, Prod.mk.injEq] at hseq
        obtain ⟨rfl, rfl⟩ := hseq
        have hr := hrange r (List.mem_cons_self r rs1)
        have hrs : ∀ x ∈ rs1, 0 ≤ x ∧ x ≤ 1023 :=
          fun x hx => hrange x (List.mem_cons_of_mem r hx)
        have hu := toU32_of_range r hr.1 hr.2
        have hb := sum_between 0 1023 rs1 hrs
        have hstep : (totRes + toU32 r) % 2 ^ 32 = totRes + toU32 r :=
          Nat.mod_eq_of_lt (by omega)
        obtain ⟨hlen, hloop⟩ := ih (totRes + toU32 r) a2 a3 rs1 hs hrs (by omega)
        refine ⟨by simp [hlen], ?_⟩
        simp only [AY_ADC_Convert_loop, hc, hstep, hloop, List.sum_cons]
        have : toU32 r + rs1.sum.toNat = (r + rs1.sum).toNat := by omega
        rw [Nat.add_assoc, this]

/-- When one of the single conversions does not return, neither does
`AY_ADC_Convert`. -/
theorem AY_ADC_Convert_loop_none {A : Type} (V : AdcVendor A) (fuel : Nat) :
    ∀ (n totRes : Nat) (a : A),
      AY_ADC_ConvertS_seq V fuel n a = none → AY_ADC_Convert_loop V fuel n totRes a = none := by
  intro n
  induction n with
  | zero => intro totRes a h; simp [AY_ADC_ConvertS_seq] at h
  | succ n ih =>
    intro totRes a h
    simp only [AY_ADC_ConvertS_seq] at h
    cases hc : AY_ADC_ConvertS V fuel a with
    | none => simp [AY_ADC_Convert_loop, hc]
    | some p =>
      obtain ⟨r, a2⟩ := p
      simp only [hc] at h
      cases hs : AY_ADC_ConvertS_seq V fuel n a2 with
      | none => simp [AY_ADC_Convert_loop, hc, ih _ a2 hs]
      | some q => simp [hs] at h

/-- C12.  `AY_ADC_Convert` makes `nSamples = 10` calls of `AY_ADC_ConvertS`
one after the other.  When these return the samples `rs`, each in `0..1023`,
leaving the converter in state `a1`, then `rs` has ten entries,
`AY_ADC_Convert` returns `rs.sum / 10` (integer division) in state `a1`, the
`uint32_t` accumulator holds the exact sum (every partial sum is at most
`10230`, below `2 ^ 32`), the result lies in `0..1023`, and it is at least
every lower bound and at most every upper bound of the samples, so it lies
between their minimum and maximum: some sample is at most the result and some
sample is at least the result. -/
theorem AY_ADC_Convert_mean {A : Type} (V : AdcVendor A) (fuel : Nat) (a a1 : A)
    (rs : List Int)
    (hseq : AY_ADC_ConvertS_seq V fuel nSamples a = some (rs, a1))
    (hrange : ∀ r ∈ rs, 0 ≤ r ∧ r ≤ 1023) :
    rs.length = 10 ∧
    AY_ADC_Convert V fuel a = some (rs.sum / 10, a1) ∧
    AY_ADC_Convert_loop V fuel nSamples 0 a = some (rs.sum.toNat, a1) ∧
    (∀ k : Nat, 0 ≤ (rs.take k).sum ∧ (rs.take k).sum ≤ 10230 ∧
      (rs.take k).sum < 2 ^ 32) ∧
    (0 ≤ rs.sum / 10 ∧ rs.sum / 10 ≤ 1023) ∧
    (∀ lo : Int, (∀ r ∈ rs, lo ≤ r) → lo ≤ rs.sum / 10) ∧
    (∀ hi : Int, (∀ r ∈ rs, r ≤ hi) → rs.sum / 10 ≤ hi) ∧
    (∃ m ∈ rs, m ≤ rs.sum / 10) ∧
    (∃ m ∈ rs, rs.sum / 10 ≤ m) := by
  obtain ⟨hlen, hloop⟩ :=
    AY_ADC_Convert_loop_eq_sum V fuel nSamples 0 a a1 rs hseq hrange (by decide)
  have hlen10 : rs.length = 10 := hlen
  have hb := sum_between 0 1023 rs hrange
  rw [hlen10] at hb
  simp only [Nat.zero_add] at hloop
  have hq : rs.sum.toNat / 10 ≤ 1023 := by omega
  have hcast : ((rs.sum.toNat / 10 : Nat) : Int) = rs.sum / 10 := by omega
  have hlow : ∀ lo : Int, (∀ r ∈ rs, lo ≤ r) → lo ≤ rs.sum / 10 := by
    intro lo hlo
    have h := sum_between lo 1023 rs (fun r hr => ⟨hlo r hr, (hrange r hr).2⟩)
    rw [hlen10] at h
    have := h.1
    omega
  have hhigh : ∀ hi : Int, (∀ r ∈ rs, r ≤ hi) → rs.sum / 10 ≤ hi := by
    intro hi hhi
    have h := sum_between 0 hi rs (fun r hr => ⟨(hrange r hr).1, hhi r hr⟩)
    rw [hlen10] at h
    have := h.2
    omega
  refine ⟨hlen10, ?_, hloop, ?_, by omega, hlow, hhigh, ?_, ?_⟩
  · simp only [AY_ADC_Convert, hloop]
    have e : nSamples = 10 := rfl
    rw [e, toInt16_of_small _ hq, hcast]
  · intro k
    have hk := sum_between 0 1023 (rs.take k)
      (fun r hr => hrange r (List.mem_of_mem_take hr))
    have hl : (rs.take k).length ≤ 10 := by
      rw [List.length_take]; omega
    have hl' : ((rs.take k).length : Int) ≤ 10 := by exact_mod_cast hl
    refine ⟨by nlinarith [hk.1], by nlinarith [hk.2], by nlinarith [hk.2]⟩
  · by_contra hc
    push_neg at hc
    have := hlow (rs.sum / 10 + 1) (fun r hr => by have := hc r hr; omega)
    omega
  · by_contra hc
    push_neg at hc
    have := hhigh (rs.sum / 10 - 1) (fun r hr => by have := hc r hr; omega)
    omega

/-- Instance of C12 on the example converter: the ten samples
`1023, 1000, 512, 3, 700, 701, 702, 1023, 40, 41` sum to `5745`, and
`AY_ADC_Convert` returns `574`. -/
theorem AY_ADC_Convert_mean_witness :
    AY_ADC_ConvertS_seq refAdcVendor 3 nSamples refAdc
      = some ([1023, 1000, 512, 3, 700, 701, 702, 1023, 40, 41],
              { queue := [], DR := 41, busy := 0 }) ∧
    (∀ r ∈ ([1023, 1000, 512, 3, 700, 701, 702, 1023, 40, 41] : List Int),
      0 ≤ r ∧ r ≤ 1023) ∧
    AY_ADC_Convert refAdcVendor 3 refAdc = some (574, { queue := [], DR := 41, busy := 0 }) :=
  have t := AY_ADC_Convert_mean refAdcVendor 3 refAdc { queue := [], DR := 41, busy := 0 }
    [1023, 1000, 512, 3, 700, 701, 702, 1023, 40, 41] (by decide) (by decide)
  ⟨by decide, by decide, by rw [t.2.1]; decide⟩

end STM8Core
